import Mathlib

/-!
Verification development for the fruit-slicing game core
(`src/scripts/main.js`): kinematics solver, moving objects, the board's
object set (hit testing, slicing, per-tick movement) and the game engine's
session logic (misses, score, difficulty ramp, spawn cadence).

Numbers are modelled as rationals (JS numbers on the values this program
produces behave like exact arithmetic except for `Math.sqrt`, which is
handled by characterising its rounded value with a predicate).  Randomness
(`Math.random()`) is modelled by explicit sample parameters in `[0,1)`.
-/

namespace NinjaFruit

/-- Fruit position is updated every 20 msec (`FruitMoveInterval = 20`). -/
def FruitMoveInterval : ℚ := 20

/-- A new fruit batch is spawned every 3 sec (`FruitSpawnInterval = 3000`). -/
def FruitSpawnInterval : ℚ := 3000

/-- Fruit flies across the screen up to 6 seconds (`FruitFlyingInterval = 6000`). -/
def FruitFlyingInterval : ℚ := 6000

/-- The 5% margin constant used by `randomPosition` and `randomVelocity`. -/
def Margin : ℚ := 1 / 20

/-- 2D point (`class Point`). -/
structure Point where
  x : ℚ
  y : ℚ
deriving DecidableEq, Repr

/-- Rectangle extent (`class Size`). -/
structure Size where
  width : ℚ
  height : ℚ
deriving DecidableEq, Repr

/-- Per-tick displacement (`class Velocity`). -/
structure Velocity where
  vx : ℚ
  vy : ℚ
deriving DecidableEq, Repr

/-- Initial fruit image size (`FruitImageSize = new Size(90, 90)`). -/
def FruitImageSize : Size := { width := 90, height := 90 }

/-- Slice direction enumeration (`SliceDirection`). -/
inductive SliceDirection where
  | Vertical
  | Horizontal
deriving DecidableEq, Repr

/-- Matching of a pattern at the head of a character list (used to model
JS `String.prototype.includes`). -/
def leadsWith : List Char → List Char → Bool
  | [], _ => true
  | _ :: _, [] => false
  | c :: cs, d :: ds => c == d && leadsWith cs ds

/-- Occurrence of a pattern anywhere in a character list. -/
def containsSeq (pat : List Char) : List Char → Bool
  | [] => leadsWith pat []
  | d :: ds => leadsWith pat (d :: ds) || containsSeq pat ds

/-- JS `s.includes(pat)`: substring occurrence test. -/
def strIncludes (s pat : String) : Bool :=
  containsSeq pat.toList s.toList

/-- A flying object (`class Fruit`): position, velocity, its own gravity,
image path, drawn image size and the sliced flag. -/
structure Fruit where
  position : Point
  velocity : Velocity
  gravity : ℚ
  imagePath : String
  imageSize : Size
  sliced : Bool
deriving DecidableEq, Repr

/-- `Fruit.isSliced()`. -/
def Fruit.isSliced (f : Fruit) : Bool := f.sliced

/-- `Fruit.isBomb()`: true iff the image path contains `"bomb"`. -/
def Fruit.isBomb (f : Fruit) : Bool := strIncludes f.imagePath "bomb"

/-- `Fruit.isFruit()`: true iff the object is not a bomb. -/
def Fruit.isFruit (f : Fruit) : Bool := !f.isBomb

/-- `Fruit.slice()`: sets the sliced flag. -/
def Fruit.slice (f : Fruit) : Fruit := { f with sliced := true }

/-- `Fruit.move()`: per-tick Euler step, in source order:
`position.x += velocity.vx; velocity.vy += gravity; position.y += velocity.vy`. -/
def Fruit.move (f : Fruit) : Fruit :=
  { f with
    position := { x := f.position.x + f.velocity.vx
                  y := f.position.y + (f.velocity.vy + f.gravity) }
    velocity := { vx := f.velocity.vx, vy := f.velocity.vy + f.gravity } }

/-- `Board.randomPosition(width, height)`: x is floored into the margined
band, y is the floor of the canvas; `rand` is the `Math.random()` sample. -/
def randomPosition (width height rand : ℚ) : Point :=
  { x := ((⌊width * Margin + rand * (width * (1 - 2 * Margin) - FruitImageSize.width)⌋ : ℤ) : ℚ)
    y := height }

/-- The randomized fall-start height computed inside `Board.randomVelocity`:
`peekHeight = (height / 2) * (Margin + Math.random() * (1 - Margin))`. -/
def peekHeight (height rand : ℚ) : ℚ :=
  height / 2 * (Margin + rand * (1 - Margin))

/-- `distanceY = height - peekHeight`: the distance travelled before falling. -/
def distanceY (height rand : ℚ) : ℚ :=
  height - peekHeight height rand

/-- Characterisation of `Math.floor(Math.sqrt q + 0.5)` (the source's
`fallingTime`) without real square roots: `f` is the value iff
`f - 1/2 ≤ √q < f + 1/2`, stated by squaring both bounds (the lower bound
is vacuous for `f = 0` since `√q ≥ 0 > -1/2`). -/
def RoundsSqrt (q : ℚ) (f : ℕ) : Prop :=
  ((2 * (f : ℚ) - 1) ^ 2 ≤ 4 * q ∨ f = 0) ∧ 4 * q < (2 * (f : ℚ) + 1) ^ 2

instance (q : ℚ) (f : ℕ) : Decidable (RoundsSqrt q f) := by
  unfold RoundsSqrt
  infer_instance

/-- `risingTime = flyingInterval / FruitMoveInterval - fallingTime`. -/
def risingTime (flyingInterval : ℚ) (fallingTime : ℕ) : ℚ :=
  flyingInterval / FruitMoveInterval - (fallingTime : ℚ)

/-- `Board.randomVelocity(startPosition, width, height, gravity, flyingInterval)`.
The `Math.random()` sample is `rand`; `fallingTime` (the rounded square root
`Math.floor(Math.sqrt(distanceY * 2 / gravity) + 0.5)`) is passed explicitly
and constrained by `RoundsSqrt` in the theorems. -/
def randomVelocity (startPosition : Point) (width height gravity flyingInterval rand : ℚ)
    (fallingTime : ℕ) : Velocity :=
  let distY := distanceY height rand
  let risingT := risingTime flyingInterval fallingTime
  let velocityY := -(distY + gravity * risingT * risingT / 2) / risingT
  let distanceX := width / 2 - startPosition.x
  let velocityX := distanceX * 2 / flyingInterval * FruitMoveInterval
  { vx := velocityX, vy := velocityY }

/-- `GameEngine.calculateGravity(fruitFlyingInterval)` with
`window.innerHeight` passed explicitly:
`time = interval / 2 / FruitMoveInterval; g = innerHeight * 2 / time / time`. -/
def calculateGravity (innerHeight fruitFlyingInterval : ℚ) : ℚ :=
  let time := fruitFlyingInterval / 2 / FruitMoveInterval
  innerHeight * 2 / time / time

/-- The part of a character list after its last `/` (models
`path.substr(path.lastIndexOf("/") + 1)`). -/
def afterLastSlash (l : List Char) : List Char :=
  l.foldl (fun acc c => if c = '/' then [] else acc ++ [c]) []

/-- JS `path.replace(".", repl)` for the one-character pattern `"."`:
replaces only the first occurrence. -/
def replaceFirstDot (repl : List Char) : List Char → List Char
  | [] => []
  | c :: cs => if c = '.' then repl ++ cs else c :: replaceFirstDot repl cs

/-- `Board.slicedImagePaths(originalPath, direction)`: keeps the file name
after the last `/`, inserts `_v1`/`_v2` (vertical) or `_h1`/`_h2`
(horizontal) before the extension and prefixes `images/`. -/
def slicedImagePaths (originalPath : String) (direction : SliceDirection) :
    String × String :=
  let path := afterLastSlash originalPath.toList
  let suffix := if direction = SliceDirection.Vertical then "_v" else "_h"
  (String.mk ("images/".toList ++ replaceFirstDot (suffix ++ "1.").toList path),
   String.mk ("images/".toList ++ replaceFirstDot (suffix ++ "2.").toList path))

/-- `Board.getSliceDirection(from, to)`:
horizontal iff `|Δx| > |Δy|`, vertical otherwise. -/
def getSliceDirection (prev next : Point) : SliceDirection :=
  if |next.y - prev.y| < |next.x - prev.x| then SliceDirection.Horizontal
  else SliceDirection.Vertical

/-- The two half-fruits constructed inside `Board.slice` for a non-bomb
fruit: half size along the cut axis (using the global `FruitImageSize`
as the source does), horizontal velocities `-|vx|` and `+|vx|`, vertical
velocity `0`, both marked sliced before insertion. -/
def sliceHalves (fruit : Fruit) (direction : SliceDirection) : Fruit × Fruit :=
  let slicedImages := slicedImagePaths fruit.imagePath direction
  let imageSize :=
    if direction = SliceDirection.Horizontal then
      Size.mk FruitImageSize.width (FruitImageSize.height / 2)
    else Size.mk (FruitImageSize.width / 2) FruitImageSize.height
  let velocityX1 := if fruit.velocity.vx < 0 then fruit.velocity.vx else -fruit.velocity.vx
  let halfOne : Fruit :=
    { position := { x := fruit.position.x, y := fruit.position.y }
      velocity := { vx := velocityX1, vy := 0 }
      gravity := fruit.gravity
      imagePath := slicedImages.1
      imageSize := imageSize
      sliced := true }
  let positionX :=
    if imageSize.width == FruitImageSize.width then fruit.position.x
    else fruit.position.x + imageSize.width
  let positionY :=
    if imageSize.width == FruitImageSize.width then fruit.position.y + imageSize.height
    else fruit.position.y
  let velocityX2 := |fruit.velocity.vx|
  let halfTwo : Fruit :=
    { position := { x := positionX, y := positionY }
      velocity := { vx := velocityX2, vy := 0 }
      gravity := fruit.gravity
      imagePath := slicedImages.2
      imageSize := imageSize
      sliced := true }
  (halfOne, halfTwo)

/-- `Board.slice(fruit, direction)` acting on the object list, addressing
the fruit by its index: mark it sliced; a bomb stays in the list (only the
bomb callback fires); a fruit is removed and its two halves are appended
(their deferred image-load insertion is modelled as immediate). -/
def boardSlice (fruits : List Fruit) (i : ℕ) (direction : SliceDirection) :
    List Fruit :=
  match fruits[i]? with
  | none => fruits
  | some fruit =>
    if fruit.isBomb then fruits.set i fruit.slice
    else
      let halves := sliceHalves fruit direction
      fruits.eraseIdx i ++ [halves.1, halves.2]

/-- The axis-aligned inclusive hit test of `Board.processMouseEvent`:
the mouse position lies within `position … position + imageSize`. -/
def hitTest (mouse : Point) (fruit : Fruit) : Prop :=
  fruit.position.x ≤ mouse.x ∧ fruit.position.y ≤ mouse.y ∧
    mouse.x ≤ fruit.position.x + fruit.imageSize.width ∧
    mouse.y ≤ fruit.position.y + fruit.imageSize.height

instance (mouse : Point) (fruit : Fruit) : Decidable (hitTest mouse fruit) := by
  unfold hitTest; infer_instance

/-- The scanning loop of `Board.processMouseEvent`, with explicit fuel:
`for (let i = 0; i < fruits.length; )` — a sliced object advances `i`,
a hit slices in place (without advancing `i`), a miss advances `i`.
`none` means the fuel ran out. -/
def hitLoop (mouse : Point) (direction : SliceDirection) :
    ℕ → List Fruit → ℕ → Option (List Fruit)
  | 0, _, _ => none
  | fuel + 1, fruits, i =>
    if h : i < fruits.length then
      let fruit := fruits.get ⟨i, h⟩
      if fruit.isSliced then hitLoop mouse direction fuel fruits (i + 1)
      else if hitTest mouse fruit then
        hitLoop mouse direction fuel (boardSlice fruits i direction) i
      else hitLoop mouse direction fuel fruits (i + 1)
    else some fruits

/-- `Board.processMouseEvent` on the object list: runs the scan loop from
index 0 with fuel `3 * length + 1` (shown sufficient below). -/
def processMouseEvent (mouse : Point) (direction : SliceDirection)
    (fruits : List Fruit) : Option (List Fruit) :=
  hitLoop mouse direction (3 * fruits.length + 1) fruits 0

/-- The miss condition of `Board.moveFruits`, checked after the move:
`!fruit.isSliced() && !fruit.isBomb() && fruit.position.y > canvas.height`. -/
def missedFruitCond (height : ℚ) (fruit : Fruit) : Bool :=
  !fruit.isSliced && !fruit.isBomb && decide (height < fruit.position.y)

/-- The retention filter of `Board.moveFruits`: the object is kept iff it is
not below the floor, not beyond the right edge and not beyond the left edge
by more than its own width. -/
def insideCanvas (width height : ℚ) (fruit : Fruit) : Bool :=
  decide (fruit.position.y ≤ height) && decide (fruit.position.x ≤ width) &&
    decide (-fruit.imageSize.width ≤ fruit.position.x)

/-- The `forEach` pass of `Board.moveFruits`: moves every object and counts
the `missedFruitCallback()` invocations. -/
def moveFruitsPass (height : ℚ) : List Fruit → List Fruit × ℕ
  | [] => ([], 0)
  | fruit :: rest =>
    let moved := fruit.move
    let tail := moveFruitsPass height rest
    (moved :: tail.1, (if missedFruitCond height moved then 1 else 0) + tail.2)

/-- `Board.moveFruits()`: the move-and-count pass followed by the
out-of-canvas removal filter; returns the new list and the number of
miss callbacks fired this tick. -/
def moveFruits (width height : ℚ) (fruits : List Fruit) : List Fruit × ℕ :=
  let pass := moveFruitsPass height fruits
  ((pass.1.filter (insideCanvas width height)), pass.2)

/-- `maxMisses = 3`. -/
def maxMisses : ℕ := 3

/-- Observable session-controller state for the miss logic: the miss count
and the number of times `gameOver` has been invoked. -/
structure EngineState where
  missedFruits : ℕ
  gameOverCount : ℕ
deriving DecidableEq, Repr

/-- `GameEngine.updateMissedFruits()`: post-increment of the miss count,
then `gameOver` exactly when the new count equals `maxMisses`. -/
def updateMissedFruits (s : EngineState) : EngineState :=
  let s' : EngineState := { s with missedFruits := s.missedFruits + 1 }
  if s'.missedFruits = maxMisses then
    { s' with gameOverCount := s'.gameOverCount + 1 }
  else s'

/-- Observable score state of `GameEngine`: score, high score, current
flight duration and current gravity. -/
structure ScoreState where
  currentScore : ℕ
  highScore : ℕ
  fruitFlyingInterval : ℚ
  gravity : ℚ
deriving DecidableEq, Repr

/-- `GameEngine.updateScore()`: add 10 points, update the high score, and
every time the score is a positive multiple of 100 shorten the flight
duration by `FruitFlyingInterval / 20` (a constant 300) and recompute the
gravity from the new duration. -/
def updateScore (innerHeight : ℚ) (s : ScoreState) : ScoreState :=
  let newPoints := 10
  let score := s.currentScore + newPoints
  let high := max s.highScore score
  if 0 < score ∧ score % 100 = 0 then
    let fly := s.fruitFlyingInterval - FruitFlyingInterval / 20
    { currentScore := score, highScore := high, fruitFlyingInterval := fly
      gravity := calculateGravity innerHeight fly }
  else
    { s with currentScore := score, highScore := high }

/-- Initial score state of a fresh session on a canvas of height `H`:
score 0, flight duration 6000, gravity computed from it. -/
def initialScoreState (innerHeight : ℚ) : ScoreState :=
  { currentScore := 0, highScore := 0
    fruitFlyingInterval := FruitFlyingInterval
    gravity := calculateGravity innerHeight FruitFlyingInterval }

/-- The batch size drawn in `GameEngine.spawnFruit()`:
`Math.floor(Math.random() * 3) + 1`. -/
def spawnTimes (rand : ℚ) : ℤ := ⌊rand * 3⌋ + 1

/-- The bomb-countdown reset drawn in `spawnFruit` (and the constructor):
`Math.floor(Math.random() * 4) + 4`. -/
def bombReset (rand : ℚ) : ℤ := ⌊rand * 4⌋ + 4

/-- One `GameEngine.spawnFruit()` trigger acting on the bomb countdown:
spawn `times` fruits, subtract the whole batch from the countdown, and when
it reaches zero or below reset it and spawn a bomb.  Returns
`(batch size, new countdown, bomb spawned?)`. -/
def spawnFruitStep (randTimes randReset : ℚ) (countdown : ℤ) : ℤ × ℤ × Bool :=
  let times := spawnTimes randTimes
  let c := countdown - times
  if c ≤ 0 then (times, bombReset randReset, true) else (times, c, false)

/-- Runs spawn triggers (one sample pair per trigger) from a given countdown
until the first bomb; returns `(scorable objects spawned, triggers used)`
at the trigger that spawned the bomb, or `none` if the samples ran out. -/
def firstBombRun (countdown : ℤ) : List (ℚ × ℚ) → Option (ℕ × ℕ)
  | [] => none
  | p :: rest =>
    let step := spawnFruitStep p.1 p.2 countdown
    if step.2.2 then some (step.1.toNat, 1)
    else
      match firstBombRun step.2.1 rest with
      | none => none
      | some q => some (step.1.toNat + q.1, q.2 + 1)

/-!  ### Basic algebraic facts about the embedded definitions  -/

/-- Faithfulness of `RoundsSqrt`: for nonnegative `q` it characterises
exactly the value `Math.floor(Math.sqrt q + 0.5)` computed by the source's
`fallingTime`. -/
lemma roundsSqrt_iff_floor_sqrt (q : ℚ) (hq : 0 ≤ q) (f : ℕ) :
    RoundsSqrt q f ↔ (f : ℤ) = ⌊Real.sqrt q + 1 / 2⌋ := by
  have hs0 : (0 : ℝ) ≤ Real.sqrt q := Real.sqrt_nonneg _
  have hqR : (0 : ℝ) ≤ (q : ℚ) := by exact_mod_cast hq
  rw [eq_comm, Int.floor_eq_iff]
  unfold RoundsSqrt
  constructor
  · rintro ⟨hlo, hhi⟩
    constructor
    · push_cast
      rcases Nat.eq_zero_or_pos f with h0 | h1
      · subst h0
        push_cast
        linarith
      · rcases hlo with hlo | h0
        · have hf2 : ((f : ℝ) - 1 / 2) ^ 2 ≤ (q : ℝ) := by
            have : ((2 * (f : ℚ) - 1) ^ 2 : ℚ) ≤ 4 * q := hlo
            have hcast : ((2 * (f : ℝ) - 1) ^ 2 : ℝ) ≤ 4 * (q : ℝ) := by
              exact_mod_cast this
            nlinarith
          have hfh : (0 : ℝ) ≤ (f : ℝ) - 1 / 2 := by
            have : (1 : ℝ) ≤ (f : ℝ) := by exact_mod_cast h1
            linarith
          have := (Real.le_sqrt hfh hqR).mpr hf2
          linarith
        · omega
    · push_cast
      have hq2 : (q : ℝ) < ((f : ℝ) + 1 / 2) ^ 2 := by
        have : (4 * q : ℚ) < (2 * (f : ℚ) + 1) ^ 2 := hhi
        have hcast : (4 * (q : ℝ) : ℝ) < (2 * (f : ℝ) + 1) ^ 2 := by
          exact_mod_cast this
        nlinarith
      have hpos : (0 : ℝ) < (f : ℝ) + 1 / 2 := by positivity
      have := (Real.sqrt_lt' hpos).mpr hq2
      linarith
  · rintro ⟨h1, h2⟩
    push_cast at h1 h2
    constructor
    · rcases Nat.eq_zero_or_pos f with h0 | hf1
      · right
        exact h0
      · left
        have hfh : (0 : ℝ) ≤ (f : ℝ) - 1 / 2 := by
          have : (1 : ℝ) ≤ (f : ℝ) := by exact_mod_cast hf1
          linarith
        have hle : (f : ℝ) - 1 / 2 ≤ Real.sqrt q := by linarith
        have := (Real.le_sqrt hfh hqR).mp hle
        have : ((2 * (f : ℝ) - 1) ^ 2 : ℝ) ≤ 4 * (q : ℝ) := by nlinarith
        exact_mod_cast this
    · have hlt : Real.sqrt q < (f : ℝ) + 1 / 2 := by linarith
      have := (Real.sqrt_lt' (by positivity)).mp hlt
      have : (4 * (q : ℝ) : ℝ) < (2 * (f : ℝ) + 1) ^ 2 := by nlinarith
      exact_mod_cast this

/-- Closed form of the gravity constant: `g = 3200 · H / T²`. -/
lemma calculateGravity_eq (innerHeight T : ℚ) (hT : T ≠ 0) :
    calculateGravity innerHeight T = 3200 * innerHeight / T ^ 2 := by
  unfold calculateGravity FruitMoveInterval
  field_simp
  ring

/-- The gravity constant is positive for positive canvas height and any
nonzero flight duration. -/
lemma calculateGravity_pos (innerHeight T : ℚ) (hH : 0 < innerHeight)
    (hT : T ≠ 0) : 0 < calculateGravity innerHeight T := by
  rw [calculateGravity_eq innerHeight T hT]
  positivity

/-- Bounds on the rise distance for a peak sample in `[0,1)`:
`height / 2 < distanceY ≤ 39 · height / 40`. -/
lemma distanceY_bounds (height rand : ℚ) (hH : 0 < height) (hr0 : 0 ≤ rand)
    (hr1 : rand < 1) :
    height / 2 < distanceY height rand ∧
      distanceY height rand ≤ 39 * height / 40 := by
  unfold distanceY peekHeight Margin
  constructor <;> nlinarith

/-- Closed form of the iterated Euler step: after `n` ticks the vertical
velocity is `vy + n·g` and the height is `y + n·vy + g·n·(n+1)/2`. -/
lemma move_iterate (fruit : Fruit) (n : ℕ) :
    (Fruit.move^[n] fruit).position.y
        = fruit.position.y + n * fruit.velocity.vy
          + fruit.gravity * (n * (n + 1)) / 2 ∧
      (Fruit.move^[n] fruit).velocity.vy
        = fruit.velocity.vy + n * fruit.gravity ∧
      (Fruit.move^[n] fruit).gravity = fruit.gravity := by
  induction n with
  | zero => simp
  | succ k ih =>
    obtain ⟨hy, hv, hg⟩ := ih
    rw [Function.iterate_succ_apply']
    refine ⟨?_, ?_, ?_⟩ <;>
      simp only [Fruit.move, hy, hv, hg] <;> push_cast <;> ring

/-- The key consequence of the rounded square root: the scaled time
quantity `4 · (2·distanceY / g)` equals `distanceY · T² / (400 · height)`. -/
lemma four_q_eq (height T rand : ℚ) (hH : height ≠ 0) (hT : T ≠ 0) :
    4 * (distanceY height rand * 2 / calculateGravity height T)
      = distanceY height rand * T ^ 2 / (400 * height) := by
  rw [calculateGravity_eq height T hT]
  field_simp
  ring

/-- For all valid inputs and any sampled peak, the rising time
`T / Δt − fallingTime` is strictly positive. -/
lemma risingTime_positive (height T rand : ℚ) (fallingTime : ℕ)
    (hH : 0 < height) (hT : 0 < T) (hr0 : 0 ≤ rand) (hr1 : rand < 1)
    (hf : RoundsSqrt (distanceY height rand * 2 / calculateGravity height T)
      fallingTime) :
    0 < risingTime T fallingTime := by
  obtain ⟨hlo, hhi⟩ := hf
  have hD := distanceY_bounds height rand hH hr0 hr1
  have hq := four_q_eq height T rand (ne_of_gt hH) (ne_of_gt hT)
  unfold risingTime FruitMoveInterval
  rcases hlo with hlo | hzero
  · -- fallingTime ≥ 1 is implicit: the bound forces T > 20 and 40·f − 20 < T
    rw [hq] at hlo
    have hDq : distanceY height rand * T ^ 2 / (400 * height)
        ≤ 39 * T ^ 2 / 16000 := by
      rw [div_le_div_iff₀ (by positivity) (by norm_num)]
      nlinarith [sq_nonneg T, hD.2]
    have h1 : (2 * (fallingTime : ℚ) - 1) ^ 2 ≤ 39 * T ^ 2 / 16000 :=
      le_trans hlo hDq
    rcases Nat.eq_zero_or_pos fallingTime with h0 | h1f
    · subst h0
      norm_num
      positivity
    · have hf1 : (1 : ℚ) ≤ (fallingTime : ℚ) := by exact_mod_cast h1f
      have hT20 : 20 < T := by nlinarith
      have hfT : 40 * (fallingTime : ℚ) - 20 < T := by nlinarith
      nlinarith
  · subst hzero
    norm_num
    positivity

/-!  ### C2: validity of the kinematics solver  -/

/-- C2 (confirmed): for every valid input `(W, H, T)` with the fixed step
interval `Δt = FruitMoveInterval > 0` and every peak-height sample in
`[0,1)`, the solver's gravity is strictly positive, the initial vertical
velocity is strictly negative (the object initially rises), and
`risingTime = T/Δt − fallingTime` is strictly positive. -/
theorem solver_gravity_positive_velocity_negative
    (width height T rand : ℚ) (startPosition : Point) (fallingTime : ℕ)
    (hW : 0 < width) (hH : 0 < height) (hT : 0 < T)
    (hr0 : 0 ≤ rand) (hr1 : rand < 1)
    (hf : RoundsSqrt (distanceY height rand * 2 / calculateGravity height T)
      fallingTime) :
    0 < calculateGravity height T ∧
      (randomVelocity startPosition width height (calculateGravity height T)
        T rand fallingTime).vy < 0 ∧
      0 < risingTime T fallingTime := by
  have hg := calculateGravity_pos height T hH (ne_of_gt hT)
  have hrt := risingTime_positive height T rand fallingTime hH hT hr0 hr1 hf
  have hD := (distanceY_bounds height rand hH hr0 hr1).1
  refine ⟨hg, ?_, hrt⟩
  simp only [randomVelocity]
  have hD0 : 0 < distanceY height rand := by linarith
  have hnum : 0 < distanceY height rand
      + calculateGravity height T * risingTime T fallingTime
        * risingTime T fallingTime / 2 := by positivity
  have := div_pos hnum hrt
  rw [neg_div]
  exact neg_lt_zero.mpr this

/-- Witness for C2 at `W = 800`, `H = 600`, `T = 6000`, peak sample
`9/19`, rounded fall time `130`. -/
theorem solver_gravity_positive_velocity_negative_witness :
    0 < calculateGravity 600 6000 ∧
      (randomVelocity (randomPosition 800 600 0) 800 600
        (calculateGravity 600 6000) 6000 (9 / 19) 130).vy < 0 ∧
      0 < risingTime 6000 130 :=
  solver_gravity_positive_velocity_negative 800 600 6000 (9 / 19)
    (randomPosition 800 600 0) 130 (by norm_num) (by norm_num) (by norm_num)
    (by norm_num) (by norm_num)
    (by norm_num [RoundsSqrt, distanceY, peekHeight, Margin, calculateGravity,
      FruitMoveInterval])

/-!  ### C1: the round trip of the kinematic solution  -/

/-- Overshoot key bound: for a whole number of flight ticks `n = T / Δt`
the quantity `2·distanceY / g` never exceeds `(n − fallingTime) ·
(fallingTime + 1)`, and `fallingTime ≤ n`. -/
lemma flight_overshoot_key (height rand : ℚ) (fallingTime n : ℕ)
    (hH : 0 < height) (hr0 : 0 ≤ rand) (hr1 : rand < 1) (hn : 1 ≤ n)
    (hf : RoundsSqrt
      (distanceY height rand * 2 / calculateGravity height (20 * n))
      fallingTime) :
    distanceY height rand * 2 / calculateGravity height (20 * n)
        ≤ ((n : ℚ) - fallingTime) * ((fallingTime : ℚ) + 1) ∧
      fallingTime ≤ n := by
  obtain ⟨hlo, hhi⟩ := hf
  have hn0 : (0 : ℚ) < (n : ℚ) := by exact_mod_cast hn
  have hn1 : (1 : ℚ) ≤ (n : ℚ) := by exact_mod_cast hn
  have hT0 : (0 : ℚ) < 20 * (n : ℚ) := by linarith
  have hq := four_q_eq height (20 * n) rand (ne_of_gt hH) (ne_of_gt hT0)
  have hD := distanceY_bounds height rand hH hr0 hr1
  -- 4·q = D·n²/H after simplifying (20n)²/400 = n²
  have hq' : 4 * (distanceY height rand * 2 / calculateGravity height (20 * n))
      = distanceY height rand * (n : ℚ) ^ 2 / height := by
    rw [hq]
    rw [div_eq_div_iff (by positivity) (ne_of_gt hH)]
    ring
  have hQb : distanceY height rand * (n : ℚ) ^ 2 / height
      ≤ 39 * (n : ℚ) ^ 2 / 40 := by
    rw [div_le_div_iff₀ hH (by norm_num)]
    nlinarith [sq_nonneg (n : ℚ), hD.2]
  have h4X : 4 * (distanceY height rand * 2 / calculateGravity height (20 * n))
      ≤ 39 * (n : ℚ) ^ 2 / 40 := by
    rw [hq']
    exact hQb
  generalize hXdef : distanceY height rand * 2 / calculateGravity height (20 * n)
    = X at hlo hhi h4X ⊢
  clear hq hq' hQb hXdef hD hT0
  rcases Nat.eq_zero_or_pos fallingTime with h0 | h1f
  · subst h0
    refine ⟨?_, Nat.zero_le n⟩
    push_cast at hhi ⊢
    nlinarith
  · have hf1 : (1 : ℚ) ≤ (fallingTime : ℚ) := by exact_mod_cast h1f
    rcases hlo with hlo | h0f
    · -- (2f−1)² ≤ 4X ≤ 39/40·n² < n², hence 2f ≤ n in ℕ
      have hsq : (2 * (fallingTime : ℚ) - 1) ^ 2 < (n : ℚ) ^ 2 := by nlinarith
      have hlt : 2 * (fallingTime : ℚ) - 1 < (n : ℚ) := by nlinarith
      have h2fn : 2 * fallingTime ≤ n := by
        have hc : ((2 * fallingTime : ℕ) : ℚ) < ((n + 1 : ℕ) : ℚ) := by
          push_cast
          linarith
        have := Nat.cast_lt.mp hc
        omega
      refine ⟨?_, by omega⟩
      rcases Nat.lt_or_ge n (2 * fallingTime + 1) with hcase | hcase
      · -- n = 2·fallingTime exactly
        have hnat : n = 2 * fallingTime := by omega
        have hn2f : (n : ℚ) = 2 * (fallingTime : ℚ) := by
          rw [hnat]
          push_cast
          ring
        rw [hn2f] at h4X ⊢
        nlinarith
      · have hc' : 2 * fallingTime + 1 ≤ n := hcase
        have hcast : ((2 * fallingTime + 1 : ℕ) : ℚ) ≤ ((n : ℕ) : ℚ) :=
          Nat.cast_le.mpr hc'
        have hgeQ : 2 * (fallingTime : ℚ) + 1 ≤ (n : ℚ) := by
          push_cast at hcast
          linarith
        have hstep : ((fallingTime : ℚ) + 1) * ((fallingTime : ℚ) + 1)
            ≤ ((n : ℚ) - fallingTime) * ((fallingTime : ℚ) + 1) := by
          nlinarith
        nlinarith [hhi, hstep]
    · omega

/-- C1 (amended): for every valid canvas, flight duration with a whole
number of ticks `n = T / Δt`, and every sampled peak height, the object
spawned at the solved position with the solved velocity and integrated for
`fallingTime + risingTime` ticks ends at or below the floor `y = H` (the
flight has returned to the floor by that tick; it generally overshoots it
by more than one tick's displacement, see the counterexample). -/
theorem solved_flight_returns_to_floor_by_final_tick
    (width height T rand posRand : ℚ) (path : String) (fallingTime n : ℕ)
    (hH : 0 < height) (hT : 0 < T) (hr0 : 0 ≤ rand) (hr1 : rand < 1)
    (hn : (n : ℚ) = T / FruitMoveInterval)
    (hf : RoundsSqrt (distanceY height rand * 2 / calculateGravity height T)
      fallingTime) :
    fallingTime ≤ n ∧
      height ≤ (Fruit.move^[fallingTime + (n - fallingTime)]
        { position := randomPosition width height posRand
          velocity := randomVelocity (randomPosition width height posRand)
            width height (calculateGravity height T) T rand fallingTime
          gravity := calculateGravity height T
          imagePath := path
          imageSize := FruitImageSize
          sliced := false }).position.y := by
  have hT20 : T = 20 * (n : ℚ) := by
    rw [hn]
    unfold FruitMoveInterval
    field_simp
  have hn1 : 1 ≤ n := by
    rcases Nat.eq_zero_or_pos n with h0 | h1
    · exfalso
      rw [h0] at hT20
      norm_num at hT20
      exact absurd hT20 (ne_of_gt hT)
    · exact h1
  rw [hT20] at hf
  obtain ⟨hkey, hfn⟩ :=
    flight_overshoot_key height rand fallingTime n hH hr0 hr1 hn1 hf
  refine ⟨hfn, ?_⟩
  rw [Nat.add_sub_cancel' hfn]
  obtain ⟨hy, -, -⟩ := move_iterate
    { position := randomPosition width height posRand
      velocity := randomVelocity (randomPosition width height posRand)
        width height (calculateGravity height T) T rand fallingTime
      gravity := calculateGravity height T
      imagePath := path
      imageSize := FruitImageSize
      sliced := false } n
  rw [hy]
  have hg : (0 : ℚ) < calculateGravity height T :=
    calculateGravity_pos height T hH (ne_of_gt hT)
  have hrt : 0 < risingTime T fallingTime := by
    rw [hT20]
    exact risingTime_positive height (20 * n) rand fallingTime hH
      (by rw [← hT20]; exact hT) hr0 hr1 hf
  have hrtval : risingTime T fallingTime = (n : ℚ) - fallingTime := by
    rw [hT20]
    unfold risingTime FruitMoveInterval
    field_simp
  simp only [randomVelocity, randomPosition]
  have hkeyT : distanceY height rand * 2 / calculateGravity height T
      ≤ ((n : ℚ) - fallingTime) * ((fallingTime : ℚ) + 1) := by
    rw [hT20]
    exact hkey
  have hkey' : distanceY height rand * 2
      ≤ ((n : ℚ) - fallingTime) * ((fallingTime : ℚ) + 1)
        * calculateGravity height T := (div_le_iff₀ hg).mp hkeyT
  have hrt' : (0 : ℚ) < (n : ℚ) - fallingTime := by
    rw [hrtval] at hrt
    exact hrt
  have hn0 : (0 : ℚ) ≤ (n : ℚ) := by positivity
  rw [hrtval]
  have hbody : 0 ≤ (n : ℚ)
      * (-(distanceY height rand
          + calculateGravity height T * ((n : ℚ) - fallingTime)
            * ((n : ℚ) - fallingTime) / 2) / ((n : ℚ) - fallingTime))
      + calculateGravity height T * ((n : ℚ) * ((n : ℚ) + 1)) / 2 := by
    have hE : (n : ℚ)
        * (-(distanceY height rand
            + calculateGravity height T * ((n : ℚ) - fallingTime)
              * ((n : ℚ) - fallingTime) / 2) / ((n : ℚ) - fallingTime))
        + calculateGravity height T * ((n : ℚ) * ((n : ℚ) + 1)) / 2
        = ((n : ℚ) / ((n : ℚ) - fallingTime))
          * (calculateGravity height T * ((n : ℚ) - fallingTime)
              * ((fallingTime : ℚ) + 1) / 2 - distanceY height rand) := by
      field_simp
      ring
    rw [hE]
    apply mul_nonneg (div_nonneg hn0 hrt'.le)
    nlinarith [hkey']
  linarith [hbody]

/-- Witness for the amended C1 at `W = 800`, `H = 600`, `T = 6000`,
peak sample `9/19`, position sample `0`, rounded fall time `130`,
`n = 300` ticks. -/
theorem solved_flight_returns_to_floor_by_final_tick_witness :
    130 ≤ 300 ∧
      (600 : ℚ) ≤ (Fruit.move^[130 + (300 - 130)]
        { position := randomPosition 800 600 0
          velocity := randomVelocity (randomPosition 800 600 0) 800 600
            (calculateGravity 600 6000) 6000 (9 / 19) 130
          gravity := calculateGravity 600 6000
          imagePath := "images/apple.png"
          imageSize := FruitImageSize
          sliced := false }).position.y :=
  solved_flight_returns_to_floor_by_final_tick 800 600 6000 (9 / 19) 0
    "images/apple.png" 130 300 (by norm_num) (by norm_num) (by norm_num)
    (by norm_num) (by norm_num [FruitMoveInterval])
    (by norm_num [RoundsSqrt, distanceY, peekHeight, Margin, calculateGravity,
      FruitMoveInterval])

/-- The concrete spawn used to refute the literal C1: canvas 800×600,
flight duration 6000, position sample 0, peak sample `9/19` (peak height
150, fall distance 450), rounded fall time 130. -/
def overshootFruit : Fruit :=
  { position := randomPosition 800 600 0
    velocity := randomVelocity (randomPosition 800 600 0) 800 600
      (calculateGravity 600 6000) 6000 (9 / 19) 130
    gravity := calculateGravity 600 6000
    imagePath := "images/apple.png"
    imageSize := FruitImageSize
    sliced := false }

/-- Counterexample to C1 as stated: after `fallingTime + risingTime`
(130 + 170 = 300) ticks the spawned object is `4316/17 ≈ 254` below the
floor, which far exceeds one tick's displacement (the final tick moves it
by `2249/255 ≈ 8.8`, the first by less than `1831/255 ≈ 7.2`; even their
sum, 16, is exceeded). -/
theorem solved_flight_ends_far_below_floor :
    RoundsSqrt (distanceY 600 (9 / 19) * 2 / calculateGravity 600 6000) 130 ∧
      risingTime 6000 130 = 170 ∧
      (Fruit.move^[130 + 170] overshootFruit).position.y = 600 + 4316 / 17 ∧
      |(Fruit.move^[130 + 170] overshootFruit).velocity.vy|
          + |overshootFruit.velocity.vy| < 4316 / 17 := by
  have hy0 : overshootFruit.position.y = 600 := rfl
  have hvy : overshootFruit.velocity.vy = -1831 / 255 := by
    show (randomVelocity (randomPosition 800 600 0) 800 600
      (calculateGravity 600 6000) 6000 (9 / 19) 130).vy = -1831 / 255
    norm_num [randomVelocity, distanceY, peekHeight, Margin, risingTime,
      calculateGravity, FruitMoveInterval]
  have hgrav : overshootFruit.gravity = 4 / 75 := by
    show calculateGravity 600 6000 = 4 / 75
    norm_num [calculateGravity, FruitMoveInterval]
  obtain ⟨hy, hv, -⟩ := move_iterate overshootFruit 300
  refine ⟨?_, ?_, ?_, ?_⟩
  · norm_num [RoundsSqrt, distanceY, peekHeight, Margin, calculateGravity,
      FruitMoveInterval]
  · norm_num [risingTime, FruitMoveInterval]
  · show (Fruit.move^[300] overshootFruit).position.y = 600 + 4316 / 17
    rw [hy, hy0, hvy, hgrav]
    norm_num
  · show |(Fruit.move^[300] overshootFruit).velocity.vy|
        + |overshootFruit.velocity.vy| < 4316 / 17
    rw [hv, hvy, hgrav]
    norm_num [abs_of_nonneg, abs_of_nonpos]

/-!  ### C3: slicing a scorable object  -/

/-- Both halves produced by `Board.slice` are marked sliced before they are
inserted. -/
lemma sliceHalves_sliced (fruit : Fruit) (direction : SliceDirection) :
    (sliceHalves fruit direction).1.sliced = true ∧
      (sliceHalves fruit direction).2.sliced = true :=
  ⟨rfl, rfl⟩

/-- `Board.slice` on a non-bomb fruit removes it and appends its two halves. -/
lemma boardSlice_fruit (l : List Fruit) (i : ℕ) (fruit : Fruit)
    (direction : SliceDirection) (hget : l[i]? = some fruit)
    (hbomb : fruit.isBomb = false) :
    boardSlice l i direction
      = l.eraseIdx i
          ++ [(sliceHalves fruit direction).1, (sliceHalves fruit direction).2] := by
  unfold boardSlice
  rw [hget]
  simp [hbomb]

/-- `Board.slice` on a bomb only marks it sliced in place. -/
lemma boardSlice_bomb (l : List Fruit) (i : ℕ) (fruit : Fruit)
    (direction : SliceDirection) (hget : l[i]? = some fruit)
    (hbomb : fruit.isBomb = true) :
    boardSlice l i direction = l.set i fruit.slice := by
  unfold boardSlice
  rw [hget]
  simp [hbomb]

/-- An index with a `getElem?` value is in bounds. -/
lemma lt_length_of_getElem?_some {l : List Fruit} {i : ℕ} {fruit : Fruit}
    (hget : l[i]? = some fruit) : i < l.length := by
  by_contra hcon
  push_neg at hcon
  rw [List.getElem?_eq_none hcon] at hget
  exact Option.noConfusion hget

/-- C3 (confirmed): slicing a scorable (non-hazard) object yields exactly
two successor objects; each half has half the original size along the cut
axis, their combined bounding area equals the original's area (the original
always measures `FruitImageSize`); the halves' horizontal velocities are
`-|vx|` and `+|vx|` (of opposite signs whenever `vx ≠ 0`), and both halves
start with vertical velocity 0 — for every original velocity including
`vx = 0`. -/
theorem slice_yields_two_mirrored_halves
    (l : List Fruit) (i : ℕ) (fruit : Fruit) (direction : SliceDirection)
    (hget : l[i]? = some fruit) (hbomb : fruit.isBomb = false)
    (hsize : fruit.imageSize = FruitImageSize) :
    (boardSlice l i direction).length = l.length + 1 ∧
      boardSlice l i direction
        = l.eraseIdx i
            ++ [(sliceHalves fruit direction).1, (sliceHalves fruit direction).2] ∧
      (direction = SliceDirection.Horizontal →
        (sliceHalves fruit direction).1.imageSize
            = { width := fruit.imageSize.width
                height := fruit.imageSize.height / 2 } ∧
          (sliceHalves fruit direction).2.imageSize
            = { width := fruit.imageSize.width
                height := fruit.imageSize.height / 2 }) ∧
      (direction = SliceDirection.Vertical →
        (sliceHalves fruit direction).1.imageSize
            = { width := fruit.imageSize.width / 2
                height := fruit.imageSize.height } ∧
          (sliceHalves fruit direction).2.imageSize
            = { width := fruit.imageSize.width / 2
                height := fruit.imageSize.height }) ∧
      (sliceHalves fruit direction).1.imageSize.width
            * (sliceHalves fruit direction).1.imageSize.height
          + (sliceHalves fruit direction).2.imageSize.width
            * (sliceHalves fruit direction).2.imageSize.height
        = fruit.imageSize.width * fruit.imageSize.height ∧
      (sliceHalves fruit direction).1.velocity.vx = -|fruit.velocity.vx| ∧
      (sliceHalves fruit direction).2.velocity.vx = |fruit.velocity.vx| ∧
      (sliceHalves fruit direction).1.velocity.vy = 0 ∧
      (sliceHalves fruit direction).2.velocity.vy = 0 ∧
      (fruit.velocity.vx ≠ 0 →
        (sliceHalves fruit direction).1.velocity.vx < 0 ∧
          0 < (sliceHalves fruit direction).2.velocity.vx) := by
  have hlen : i < l.length := lt_length_of_getElem?_some hget
  have heq := boardSlice_fruit l i fruit direction hget hbomb
  have habs : (sliceHalves fruit direction).1.velocity.vx
      = -|fruit.velocity.vx| := by
    rcases le_or_lt 0 fruit.velocity.vx with h | h
    · simp [sliceHalves, not_lt.mpr h, abs_of_nonneg h]
    · simp [sliceHalves, h, abs_of_neg h]
  refine ⟨?_, heq, ?_, ?_, ?_, habs, rfl, rfl, rfl, ?_⟩
  · rw [heq]
    rw [List.length_append, List.length_eraseIdx]
    simp [hlen]
    omega
  · rintro rfl
    rw [hsize]
    exact ⟨rfl, rfl⟩
  · rintro rfl
    rw [hsize]
    exact ⟨rfl, rfl⟩
  · cases direction <;> rw [hsize] <;> simp [sliceHalves] <;>
      norm_num [FruitImageSize]
  · intro hne
    have habs0 : 0 < |fruit.velocity.vx| := abs_pos.mpr hne
    constructor
    · rw [habs]
      linarith
    · show |fruit.velocity.vx| > 0
      exact habs0

/-- A concrete scorable object used to witness C3. -/
def appleFruit : Fruit :=
  { position := { x := 100, y := 200 }
    velocity := { vx := 12 / 5, vy := -7 }
    gravity := 4 / 75
    imagePath := "images/apple.png"
    imageSize := FruitImageSize
    sliced := false }

/-- Witness for C3: slicing `appleFruit` horizontally in the singleton set. -/
theorem slice_yields_two_mirrored_halves_witness :
    (boardSlice [appleFruit] 0 SliceDirection.Horizontal).length
        = [appleFruit].length + 1 ∧
      boardSlice [appleFruit] 0 SliceDirection.Horizontal
        = [appleFruit].eraseIdx 0
            ++ [(sliceHalves appleFruit SliceDirection.Horizontal).1,
              (sliceHalves appleFruit SliceDirection.Horizontal).2] ∧
      (SliceDirection.Horizontal = SliceDirection.Horizontal →
        (sliceHalves appleFruit SliceDirection.Horizontal).1.imageSize
            = { width := appleFruit.imageSize.width
                height := appleFruit.imageSize.height / 2 } ∧
          (sliceHalves appleFruit SliceDirection.Horizontal).2.imageSize
            = { width := appleFruit.imageSize.width
                height := appleFruit.imageSize.height / 2 }) ∧
      (SliceDirection.Horizontal = SliceDirection.Vertical →
        (sliceHalves appleFruit SliceDirection.Horizontal).1.imageSize
            = { width := appleFruit.imageSize.width / 2
                height := appleFruit.imageSize.height } ∧
          (sliceHalves appleFruit SliceDirection.Horizontal).2.imageSize
            = { width := appleFruit.imageSize.width / 2
                height := appleFruit.imageSize.height }) ∧
      (sliceHalves appleFruit SliceDirection.Horizontal).1.imageSize.width
            * (sliceHalves appleFruit SliceDirection.Horizontal).1.imageSize.height
          + (sliceHalves appleFruit SliceDirection.Horizontal).2.imageSize.width
            * (sliceHalves appleFruit SliceDirection.Horizontal).2.imageSize.height
        = appleFruit.imageSize.width * appleFruit.imageSize.height ∧
      (sliceHalves appleFruit SliceDirection.Horizontal).1.velocity.vx
        = -|appleFruit.velocity.vx| ∧
      (sliceHalves appleFruit SliceDirection.Horizontal).2.velocity.vx
        = |appleFruit.velocity.vx| ∧
      (sliceHalves appleFruit SliceDirection.Horizontal).1.velocity.vy = 0 ∧
      (sliceHalves appleFruit SliceDirection.Horizontal).2.velocity.vy = 0 ∧
      (appleFruit.velocity.vx ≠ 0 →
        (sliceHalves appleFruit SliceDirection.Horizontal).1.velocity.vx < 0 ∧
          0 < (sliceHalves appleFruit SliceDirection.Horizontal).2.velocity.vx) :=
  slice_yields_two_mirrored_halves [appleFruit] 0 appleFruit
    SliceDirection.Horizontal rfl (by decide) rfl

/-!  ### List helper lemmas for the hit-testing loop  -/

lemma mem_set_of_ne {α : Type} {o fi : α} :
    ∀ (l : List α) (i : ℕ) (x : α),
      l[i]? = some fi → o ∈ l → o ≠ fi → o ∈ l.set i x := by
  intro l
  induction l with
  | nil =>
    intro i x hget
    simp at hget
  | cons hd tl ih =>
    intro i x hget hmem hne
    cases i with
    | zero =>
      simp only [List.getElem?_cons_zero, Option.some_inj] at hget
      subst hget
      rcases List.mem_cons.mp hmem with h | h
      · exact absurd h hne
      · simp only [List.set]
        exact List.mem_cons_of_mem _ h
    | succ i =>
      simp only [List.getElem?_cons_succ] at hget
      rcases List.mem_cons.mp hmem with h | h
      · simp only [List.set, h]
        exact List.mem_cons_self _ _
      · simp only [List.set]
        exact List.mem_cons_of_mem _ (ih i x hget h hne)

lemma mem_eraseIdx_of_ne {α : Type} {o fi : α} :
    ∀ (l : List α) (i : ℕ),
      l[i]? = some fi → o ∈ l → o ≠ fi → o ∈ l.eraseIdx i := by
  intro l
  induction l with
  | nil =>
    intro i hget
    simp at hget
  | cons hd tl ih =>
    intro i hget hmem hne
    cases i with
    | zero =>
      simp only [List.getElem?_cons_zero, Option.some_inj] at hget
      subst hget
      rcases List.mem_cons.mp hmem with h | h
      · exact absurd h hne
      · simpa [List.eraseIdx] using h
    | succ i =>
      simp only [List.getElem?_cons_succ] at hget
      rcases List.mem_cons.mp hmem with h | h
      · simp [List.eraseIdx, h]
      · simp only [List.eraseIdx]
        exact List.mem_cons_of_mem _ (ih i hget h hne)

lemma countP_set_exchange (p : Fruit → Bool) :
    ∀ (l : List Fruit) (i : ℕ) (x fi : Fruit), l[i]? = some fi →
      (l.set i x).countP p + (if p fi then 1 else 0)
        = l.countP p + (if p x then 1 else 0) := by
  intro l
  induction l with
  | nil =>
    intro i x fi hget
    simp at hget
  | cons hd tl ih =>
    intro i x fi hget
    cases i with
    | zero =>
      simp only [List.getElem?_cons_zero, Option.some_inj] at hget
      subst hget
      simp only [List.set, List.countP_cons]
      omega
    | succ i =>
      simp only [List.getElem?_cons_succ] at hget
      simp only [List.set, List.countP_cons]
      have := ih i x fi hget
      omega

lemma countP_eraseIdx_exchange (p : Fruit → Bool) :
    ∀ (l : List Fruit) (i : ℕ) (fi : Fruit), l[i]? = some fi →
      (l.eraseIdx i).countP p + (if p fi then 1 else 0) = l.countP p := by
  intro l
  induction l with
  | nil =>
    intro i fi hget
    simp at hget
  | cons hd tl ih =>
    intro i fi hget
    cases i with
    | zero =>
      simp only [List.getElem?_cons_zero, Option.some_inj] at hget
      subst hget
      simp only [List.eraseIdx, List.countP_cons]
    | succ i =>
      simp only [List.getElem?_cons_succ] at hget
      simp only [List.eraseIdx, List.countP_cons]
      have := ih i fi hget
      omega

/-- Number of unsliced objects in a list. -/
def unslicedCount (l : List Fruit) : ℕ := l.countP (fun o => !o.sliced)

/-- Slicing at an unsliced index strictly decreases the unsliced count and
changes the length by at most one (a bomb keeps the length, a fruit adds
one). -/
lemma boardSlice_measure (l : List Fruit) (i : ℕ) (direction : SliceDirection)
    (h : i < l.length) (hs : (l.get ⟨i, h⟩).isSliced = false) :
    unslicedCount (boardSlice l i direction) + 1 = unslicedCount l ∧
      (boardSlice l i direction).length ≤ l.length + 1 := by
  have hget : l[i]? = some (l.get ⟨i, h⟩) := by
    simp [List.getElem?_eq_getElem h]
  have hpf : (fun o => !o.sliced) (l.get ⟨i, h⟩) = true := by
    simpa [Fruit.isSliced] using hs
  by_cases hb : (l.get ⟨i, h⟩).isBomb
  · rw [boardSlice_bomb l i _ direction hget hb]
    have hx := countP_set_exchange (fun o => !o.sliced) l i (l.get ⟨i, h⟩).slice
      (l.get ⟨i, h⟩) hget
    rw [hpf] at hx
    have hxs : (fun o => !o.sliced) (l.get ⟨i, h⟩).slice = false := by
      simp [Fruit.slice]
    rw [hxs] at hx
    norm_num at hx
    simp only [List.get_eq_getElem] at hx ⊢
    constructor
    · unfold unslicedCount
      omega
    · rw [List.length_set]
      omega
  · rw [boardSlice_fruit l i _ direction hget (by simpa using hb)]
    have hx := countP_eraseIdx_exchange (fun o => !o.sliced) l i
      (l.get ⟨i, h⟩) hget
    rw [hpf] at hx
    norm_num at hx
    have hhalves : ∀ fr : Fruit,
        ([(sliceHalves fr direction).1,
          (sliceHalves fr direction).2].countP (fun o => !o.sliced)) = 0 := by
      intro fr
      have h1 := (sliceHalves_sliced fr direction).1
      have h2 := (sliceHalves_sliced fr direction).2
      simp [List.countP_cons, h1, h2]
    constructor
    · unfold unslicedCount
      rw [List.countP_append, hhalves]
      omega
    · rw [List.length_append, List.length_eraseIdx]
      simp [h]
      omega

/-- Fuel bound for the hit-testing loop: `length − i + 2 · unsliced` steps
always suffice. -/
lemma hitLoop_isSome (mouse : Point) (direction : SliceDirection) :
    ∀ (fuel : ℕ) (l : List Fruit) (i : ℕ),
      l.length - i + 2 * unslicedCount l < fuel →
      (hitLoop mouse direction fuel l i).isSome = true := by
  intro fuel
  induction fuel with
  | zero =>
    intro l i h
    omega
  | succ fuel ih =>
    intro l i hm
    rw [hitLoop]
    by_cases h : i < l.length
    · rw [dif_pos h]
      show ((if (l.get ⟨i, h⟩).isSliced then hitLoop mouse direction fuel l (i + 1)
        else if hitTest mouse (l.get ⟨i, h⟩) then
          hitLoop mouse direction fuel (boardSlice l i direction) i
        else hitLoop mouse direction fuel l (i + 1)).isSome) = true
      by_cases hs : (l.get ⟨i, h⟩).isSliced
      · rw [if_pos hs]
        apply ih
        omega
      · rw [if_neg hs]
        by_cases hh : hitTest mouse (l.get ⟨i, h⟩)
        · rw [if_pos hh]
          apply ih
          have := boardSlice_measure l i direction h (by simpa using hs)
          omega
        · rw [if_neg hh]
          apply ih
          omega
    · rw [dif_neg h]
      rfl

/-!  ### C9: termination of the pointer-event hit-test loop  -/

/-- C9 (confirmed): for every finite object set and every pointer position
and slice direction, the hit-test loop of `processMouseEvent` terminates —
with fuel `3 · length + 1` it always returns a final object list: each
iteration advances the index (sliced object or no hit), or slices a fruit
(strictly decreasing the number of unsliced objects while appending only
already-sliced halves), or marks a bomb sliced in place so the next visit
of the same index advances. -/
theorem pointer_event_hit_loop_terminates (mouse : Point)
    (direction : SliceDirection) (l : List Fruit) :
    (processMouseEvent mouse direction l).isSome = true := by
  unfold processMouseEvent
  apply hitLoop_isSome
  have := List.countP_le_length (p := fun o => !o.sliced) (l := l)
  unfold unslicedCount
  omega

/-!  ### C5: sliced objects and the slice lifecycle  -/

/-- The hit-test pass never touches an already-sliced object: every sliced
member of the input list is still a member of the output list. -/
lemma hitLoop_preserves_sliced (mouse : Point) (direction : SliceDirection) :
    ∀ (fuel : ℕ) (l : List Fruit) (i : ℕ) (result : List Fruit),
      hitLoop mouse direction fuel l i = some result →
      ∀ o, o ∈ l → o.sliced = true → o ∈ result := by
  intro fuel
  induction fuel with
  | zero =>
    intro l i result hrun
    exact absurd hrun (by simp [hitLoop])
  | succ fuel ih =>
    intro l i result hrun o hmem hsl
    rw [hitLoop] at hrun
    by_cases h : i < l.length
    · rw [dif_pos h] at hrun
      have hrun' : (if (l.get ⟨i, h⟩).isSliced then
          hitLoop mouse direction fuel l (i + 1)
        else if hitTest mouse (l.get ⟨i, h⟩) then
          hitLoop mouse direction fuel (boardSlice l i direction) i
        else hitLoop mouse direction fuel l (i + 1)) = some result := hrun
      by_cases hs : (l.get ⟨i, h⟩).isSliced
      · rw [if_pos hs] at hrun'
        exact ih l (i + 1) result hrun' o hmem hsl
      · rw [if_neg hs] at hrun'
        have hget : l[i]? = some (l.get ⟨i, h⟩) := by
          simp [List.getElem?_eq_getElem h]
        have hne : o ≠ l.get ⟨i, h⟩ := by
          intro he
          rw [← he] at hs
          exact hs (by simpa [Fruit.isSliced] using hsl)
        by_cases hh : hitTest mouse (l.get ⟨i, h⟩)
        · rw [if_pos hh] at hrun'
          apply ih _ _ _ hrun' o _ hsl
          by_cases hb : (l.get ⟨i, h⟩).isBomb
          · rw [boardSlice_bomb l i _ direction hget hb]
            exact mem_set_of_ne l i _ hget hmem hne
          · rw [boardSlice_fruit l i _ direction hget (by simpa using hb)]
            exact List.mem_append_left _ (mem_eraseIdx_of_ne l i hget hmem hne)
        · rw [if_neg hh] at hrun'
          exact ih l (i + 1) result hrun' o hmem hsl
    · rw [dif_neg h] at hrun
      have : l = result := by
        injection hrun
      rw [← this]
      exact hmem

/-- C5 (amended): a Sliced object is skipped by the hit-test pass and
survives it untouched; when an object becomes Sliced through
`Board.slice`, a non-hazard fruit is removed from the set having spawned
its two successor halves (both already Sliced), while a hazard (bomb)
stays in the set marked Sliced with no successors — it never re-enters hit
testing thereafter. -/
theorem sliced_objects_skip_hit_testing
    : (∀ (mouse : Point) (direction : SliceDirection) (l result : List Fruit),
        processMouseEvent mouse direction l = some result →
        ∀ o, o ∈ l → o.sliced = true → o ∈ result) ∧
      (∀ (l : List Fruit) (i : ℕ) (fruit : Fruit) (direction : SliceDirection),
        l[i]? = some fruit → fruit.isBomb = true →
        (boardSlice l i direction).length = l.length ∧
          fruit.slice ∈ boardSlice l i direction) ∧
      (∀ (l : List Fruit) (i : ℕ) (fruit : Fruit) (direction : SliceDirection),
        l[i]? = some fruit → fruit.isBomb = false →
        boardSlice l i direction
            = l.eraseIdx i ++ [(sliceHalves fruit direction).1,
                (sliceHalves fruit direction).2] ∧
          (sliceHalves fruit direction).1.sliced = true ∧
          (sliceHalves fruit direction).2.sliced = true) := by
  refine ⟨?_, ?_, ?_⟩
  · intro mouse direction l result hrun o hmem hsl
    exact hitLoop_preserves_sliced mouse direction _ l 0 result hrun o hmem hsl
  · intro l i fruit direction hget hbomb
    have hlen : i < l.length := lt_length_of_getElem?_some hget
    rw [boardSlice_bomb l i fruit direction hget hbomb]
    refine ⟨List.length_set l i fruit.slice, ?_⟩
    have hlen' : i < (l.set i fruit.slice).length := by
      rw [List.length_set]
      exact hlen
    have hat : (l.set i fruit.slice).get ⟨i, hlen'⟩ = fruit.slice :=
      List.getElem_set_self hlen'
    have hmem : (l.set i fruit.slice).get ⟨i, hlen'⟩ ∈ l.set i fruit.slice :=
      List.get_mem _ _ hlen'
    rw [hat] at hmem
    exact hmem
  · intro l i fruit direction hget hbomb
    exact ⟨boardSlice_fruit l i fruit direction hget hbomb,
      (sliceHalves_sliced fruit direction).1, (sliceHalves_sliced fruit direction).2⟩

/-- A concrete unsliced bomb object. -/
def bombObj : Fruit :=
  { position := { x := 100, y := 100 }
    velocity := { vx := 1, vy := -2 }
    gravity := 4 / 75
    imagePath := "images/bomb.png"
    imageSize := FruitImageSize
    sliced := false }

/-- Witness for the amended C5: a sliced bomb survives a pointer event,
slicing a bomb keeps the set size, and slicing `appleFruit` removes it and
appends its two already-sliced halves. -/
theorem sliced_objects_skip_hit_testing_witness :
    bombObj.slice ∈ ([bombObj.slice] : List Fruit) ∧
      ((boardSlice [bombObj] 0 SliceDirection.Vertical).length
          = [bombObj].length ∧
        bombObj.slice ∈ boardSlice [bombObj] 0 SliceDirection.Vertical) ∧
      (boardSlice [appleFruit] 0 SliceDirection.Vertical
          = [appleFruit].eraseIdx 0
              ++ [(sliceHalves appleFruit SliceDirection.Vertical).1,
                (sliceHalves appleFruit SliceDirection.Vertical).2] ∧
        (sliceHalves appleFruit SliceDirection.Vertical).1.sliced = true ∧
        (sliceHalves appleFruit SliceDirection.Vertical).2.sliced = true) :=
  ⟨sliced_objects_skip_hit_testing.1 { x := 0, y := 0 } SliceDirection.Vertical
      [bombObj.slice] [bombObj.slice] rfl bombObj.slice (by simp) rfl,
    sliced_objects_skip_hit_testing.2.1 [bombObj] 0 bombObj
      SliceDirection.Vertical rfl (by decide),
    sliced_objects_skip_hit_testing.2.2 [appleFruit] 0 appleFruit
      SliceDirection.Vertical rfl (by decide)⟩

/-- Counterexample to C5 as stated: a hazard that becomes Sliced is neither
removed from the set nor does it spawn successor objects — the sliced bomb
remains the sole member of the set. -/
theorem sliced_bomb_stays_in_set_with_no_successors :
    bombObj.isBomb = true ∧
      boardSlice [bombObj] 0 SliceDirection.Vertical = [bombObj.slice] ∧
      (boardSlice [bombObj] 0 SliceDirection.Vertical).length = 1 ∧
      bombObj.slice.sliced = true :=
  ⟨by decide, rfl, rfl, rfl⟩

/-!  ### C6: the miss counter  -/

/-- The `forEach` pass of `moveFruits` moves every object and fires the
miss callback exactly `countP missedFruitCond` times. -/
lemma moveFruitsPass_eq (height : ℚ) (l : List Fruit) :
    moveFruitsPass height l
      = (l.map Fruit.move,
          (l.map Fruit.move).countP (missedFruitCond height)) := by
  induction l with
  | nil => rfl
  | cons hd tl ih =>
    simp only [moveFruitsPass, ih, List.map_cons, List.countP_cons,
      Prod.mk.injEq, true_and]
    omega

/-- C6 (confirmed): on a tick, the miss counter is incremented exactly once
for each moved object that is unsliced, non-hazard and below the floor;
sliced objects and hazards never satisfy the miss condition; and every
such missed object (indeed every object below the floor) is removed from
the set in the same tick. -/
theorem miss_counted_once_per_unsliced_fruit_below_floor
    (width height : ℚ) (l : List Fruit) :
    (moveFruits width height l).2
        = (l.map Fruit.move).countP (missedFruitCond height) ∧
      (∀ o, o ∈ l.map Fruit.move → missedFruitCond height o = true →
        o ∉ (moveFruits width height l).1) ∧
      (∀ o : Fruit, o.isSliced = true ∨ o.isBomb = true →
        missedFruitCond height o = false) ∧
      (∀ o, o ∈ (moveFruits width height l).1 → o.position.y ≤ height) := by
  refine ⟨?_, ?_, ?_, ?_⟩
  · simp only [moveFruits, moveFruitsPass_eq]
  · intro o hmem hmc hcontra
    simp only [moveFruits, moveFruitsPass_eq] at hcontra
    have hin := (List.mem_filter.mp hcontra).2
    simp only [insideCanvas, Bool.and_eq_true, decide_eq_true_eq] at hin
    simp only [missedFruitCond, Bool.and_eq_true, decide_eq_true_eq] at hmc
    linarith [hin.1.1, hmc.2]
  · intro o ho
    simp only [missedFruitCond]
    rcases ho with h | h
    · simp only [Fruit.isSliced] at h ⊢
      simp [h]
    · simp [h]
  · intro o hmem
    simp only [moveFruits, moveFruitsPass_eq] at hmem
    have hin := (List.mem_filter.mp hmem).2
    simp only [insideCanvas, Bool.and_eq_true, decide_eq_true_eq] at hin
    exact hin.1.1

/-- A concrete unsliced fruit one tick above the floor of a 800×600 canvas. -/
def fallingFruit : Fruit :=
  { position := { x := 100, y := 600 }
    velocity := { vx := 0, vy := 5 }
    gravity := 1
    imagePath := "images/pear.png"
    imageSize := FruitImageSize
    sliced := false }

/-- Witness for C6: `fallingFruit` crosses the floor on this tick, is
counted exactly once and removed. -/
theorem miss_counted_once_per_unsliced_fruit_below_floor_witness :
    (moveFruits 800 600 [fallingFruit]).2 = 1 ∧
      fallingFruit.move ∉ (moveFruits 800 600 [fallingFruit]).1 := by
  have h := miss_counted_once_per_unsliced_fruit_below_floor 800 600
    [fallingFruit]
  have hcond : missedFruitCond 600 fallingFruit.move = true := by
    simp only [missedFruitCond, Fruit.move, Fruit.isSliced, fallingFruit,
      Bool.and_eq_true, decide_eq_true_eq]
    refine ⟨⟨rfl, ?_⟩, by norm_num⟩
    decide
  constructor
  · rw [h.1]
    simp [List.countP_cons, hcond]
  · exact h.2.1 fallingFruit.move (by simp) hcond

/-!  ### C7: game over exactly once at the third miss  -/

/-- C7 (confirmed): starting from a fresh session (`missedFruits = 0`,
`maxMisses = 3`), after any number `k` of miss events the miss count is
`k` and `gameOver` has been invoked exactly once if `k ≥ 3` and never
otherwise — the transition fires exactly at the miss that makes the count
equal `maxMisses`, with no second trigger on later miss events. -/
theorem game_over_fires_exactly_once_at_third_miss (k : ℕ) :
    (updateMissedFruits^[k]
        { missedFruits := 0, gameOverCount := 0 }).missedFruits = k ∧
      (updateMissedFruits^[k]
        { missedFruits := 0, gameOverCount := 0 }).gameOverCount
        = if maxMisses ≤ k then 1 else 0 := by
  induction k with
  | zero => exact ⟨rfl, rfl⟩
  | succ k ih =>
    obtain ⟨hm, hg⟩ := ih
    rw [Function.iterate_succ_apply']
    simp only [updateMissedFruits, maxMisses, hm, hg]
    by_cases h3 : k + 1 = 3
    · rw [if_pos h3]
      refine ⟨rfl, ?_⟩
      show (if 3 ≤ k then 1 else 0) + 1 = if 3 ≤ k + 1 then 1 else 0
      rw [if_neg (by omega), if_pos (by omega)]
    · rw [if_neg h3]
      refine ⟨rfl, ?_⟩
      show (if 3 ≤ k then 1 else 0) = if 3 ≤ k + 1 then 1 else 0
      rcases Nat.lt_or_ge k 3 with h | h
      · rw [if_neg (by omega), if_neg (by omega)]
      · rw [if_pos h, if_pos (by omega)]

/-!  ### C8: the difficulty ramp  -/

/-- Closed form of the score-state iteration from a fresh session: after
`n` slices the score is `10·n` and the flight duration has been reduced by
a fixed `300` once per full `100` points. -/
lemma updateScore_iterate (innerHeight : ℚ) (n : ℕ) :
    ((updateScore innerHeight)^[n]
        (initialScoreState innerHeight)).currentScore = 10 * n ∧
      ((updateScore innerHeight)^[n]
        (initialScoreState innerHeight)).fruitFlyingInterval
        = FruitFlyingInterval - 300 * ((n / 10 : ℕ) : ℚ) := by
  induction n with
  | zero =>
    constructor
    · rfl
    · show FruitFlyingInterval = FruitFlyingInterval - 300 * ((0 : ℕ) : ℚ)
      norm_num
  | succ n ih =>
    obtain ⟨hs, hf⟩ := ih
    rw [Function.iterate_succ_apply']
    simp only [updateScore, hs, hf]
    by_cases h10 : (10 * n + 10) % 100 = 0
    · rw [if_pos ⟨by omega, h10⟩]
      constructor
      · show 10 * n + 10 = 10 * (n + 1)
        omega
      · show FruitFlyingInterval - 300 * ((n / 10 : ℕ) : ℚ)
              - FruitFlyingInterval / 20
            = FruitFlyingInterval - 300 * (((n + 1) / 10 : ℕ) : ℚ)
        have hdvd : (n + 1) / 10 = n / 10 + 1 := by omega
        rw [hdvd]
        push_cast
        unfold FruitFlyingInterval
        ring
    · rw [if_neg (fun hc => h10 hc.2)]
      constructor
      · show 10 * n + 10 = 10 * (n + 1)
        omega
      · show FruitFlyingInterval - 300 * ((n / 10 : ℕ) : ℚ)
            = FruitFlyingInterval - 300 * (((n + 1) / 10 : ℕ) : ℚ)
        have hsame : (n + 1) / 10 = n / 10 := by omega
        rw [hsame]

/-- C8 (amended): each slice adds 10 points; exactly when the new score is
a multiple of 100 the flight duration is shortened by the fixed constant
`FruitFlyingInterval / 20 = 300` (5% of the *initial* 6000 duration, not
of the current one) and the gravity is recomputed from the new duration;
the recomputed gravity is strictly larger than the previous one while the
duration stays positive; from a fresh session the ramp has fired exactly
`n / 10` times after `n` slices. -/
theorem score_ramp_fires_each_100_points (innerHeight : ℚ) (s : ScoreState)
    (n : ℕ) (hH : 0 < innerHeight) :
    (updateScore innerHeight s).currentScore = s.currentScore + 10 ∧
      ((s.currentScore + 10) % 100 = 0 →
        (updateScore innerHeight s).fruitFlyingInterval
            = s.fruitFlyingInterval - 300 ∧
          (updateScore innerHeight s).gravity
            = calculateGravity innerHeight (s.fruitFlyingInterval - 300)) ∧
      ((s.currentScore + 10) % 100 ≠ 0 →
        (updateScore innerHeight s).fruitFlyingInterval
            = s.fruitFlyingInterval ∧
          (updateScore innerHeight s).gravity = s.gravity) ∧
      (∀ T : ℚ, 0 < T - 300 →
        calculateGravity innerHeight T
          < calculateGravity innerHeight (T - 300)) ∧
      ((s.currentScore + 10) % 100 = 0 →
        s.gravity = calculateGravity innerHeight s.fruitFlyingInterval →
        0 < s.fruitFlyingInterval - 300 →
        s.gravity < (updateScore innerHeight s).gravity) ∧
      ((updateScore innerHeight)^[n]
          (initialScoreState innerHeight)).currentScore = 10 * n ∧
      ((updateScore innerHeight)^[n]
          (initialScoreState innerHeight)).fruitFlyingInterval
        = FruitFlyingInterval - 300 * ((n / 10 : ℕ) : ℚ) := by
  have hconst : FruitFlyingInterval / 20 = (300 : ℚ) := by
    norm_num [FruitFlyingInterval]
  have hmono : ∀ T : ℚ, 0 < T - 300 →
      calculateGravity innerHeight T < calculateGravity innerHeight (T - 300) := by
    intro T hT3
    have hT : (0 : ℚ) < T := by linarith
    rw [calculateGravity_eq innerHeight T (ne_of_gt hT),
      calculateGravity_eq innerHeight (T - 300) (ne_of_gt hT3)]
    apply div_lt_div_of_pos_left (by linarith) (by positivity)
    nlinarith
  have hramp : (s.currentScore + 10) % 100 = 0 →
      (updateScore innerHeight s).fruitFlyingInterval
          = s.fruitFlyingInterval - 300 ∧
        (updateScore innerHeight s).gravity
          = calculateGravity innerHeight (s.fruitFlyingInterval - 300) := by
    intro hc
    have hcond : 0 < s.currentScore + 10 ∧ (s.currentScore + 10) % 100 = 0 :=
      ⟨by omega, hc⟩
    simp only [updateScore]
    rw [if_pos hcond, hconst]
    exact ⟨rfl, rfl⟩
  refine ⟨?_, hramp, ?_, hmono, ?_, (updateScore_iterate innerHeight n).1,
    (updateScore_iterate innerHeight n).2⟩
  · simp only [updateScore]
    by_cases hc : 0 < s.currentScore + 10 ∧ (s.currentScore + 10) % 100 = 0
    · rw [if_pos hc]
    · rw [if_neg hc]
  · intro hc
    simp only [updateScore]
    rw [if_neg (fun hand => hc hand.2)]
    exact ⟨rfl, rfl⟩
  · intro hc hgrav hpos
    rw [(hramp hc).2, hgrav]
    exact hmono s.fruitFlyingInterval hpos

/-- Witness for the amended C8 at `H = 600` and the state just before the
first ramp (score 90, duration 6000). -/
theorem score_ramp_fires_each_100_points_witness :
    (updateScore 600
        { currentScore := 90, highScore := 90
          fruitFlyingInterval := 6000
          gravity := calculateGravity 600 6000 }).fruitFlyingInterval
        = 6000 - 300 ∧
      (updateScore 600
        { currentScore := 90, highScore := 90
          fruitFlyingInterval := 6000
          gravity := calculateGravity 600 6000 }).gravity
        = calculateGravity 600 (6000 - 300) ∧
      calculateGravity 600 6000 < calculateGravity 600 (6000 - 300) ∧
      ((updateScore 600)^[20] (initialScoreState 600)).currentScore = 200 := by
  have h := score_ramp_fires_each_100_points 600
    { currentScore := 90, highScore := 90
      fruitFlyingInterval := 6000
      gravity := calculateGravity 600 6000 } 20 (by norm_num)
  have hr := h.2.1 (by norm_num)
  refine ⟨hr.1, hr.2, ?_, ?_⟩
  · have := h.2.2.2.1 6000 (by norm_num)
    simpa using this
  · have := h.2.2.2.2.2.1
    simpa using this

/-- Counterexample to C8 as stated: the first crossing of 100 points
shortens the flight duration from 6000 to 5700 (exactly 5%), but the
second crossing shortens it from 5700 to 5400 — strictly below
`5700 · (1 − 5/100) = 5415`, so it is not a 5% reduction of the current
duration. -/
theorem second_ramp_shortens_more_than_five_percent :
    ((updateScore 600)^[10] (initialScoreState 600)).fruitFlyingInterval
        = 5700 ∧
      ((updateScore 600)^[20] (initialScoreState 600)).fruitFlyingInterval
        = 5400 ∧
      (5400 : ℚ) < 5700 - 5700 * (5 / 100) := by
  have h10 := (updateScore_iterate 600 10).2
  have h20 := (updateScore_iterate 600 20).2
  refine ⟨?_, ?_, by norm_num⟩
  · rw [h10]
    norm_num [FruitFlyingInterval]
  · rw [h20]
    norm_num [FruitFlyingInterval]

/-!  ### C10: spawn batches and the bomb cadence  -/

/-- All sample components lie in `[0, 1)` (the range of `Math.random()`). -/
def ValidSamples (samples : List (ℚ × ℚ)) : Prop :=
  ∀ p ∈ samples, 0 ≤ p.1 ∧ p.1 < 1

/-- The batch size drawn on a spawn trigger is between 1 and 3. -/
lemma spawnTimes_bounds (r : ℚ) (h0 : 0 ≤ r) (h1 : r < 1) :
    1 ≤ spawnTimes r ∧ spawnTimes r ≤ 3 := by
  unfold spawnTimes
  constructor
  · have := Int.floor_nonneg.mpr (show (0 : ℚ) ≤ r * 3 by positivity)
    omega
  · have : ⌊r * 3⌋ < 3 := Int.floor_lt.mpr (by push_cast; linarith)
    omega

/-- The reset value of the bomb countdown is between 4 and 7. -/
lemma bombReset_bounds (r : ℚ) (h0 : 0 ≤ r) (h1 : r < 1) :
    4 ≤ bombReset r ∧ bombReset r ≤ 7 := by
  unfold bombReset
  constructor
  · have := Int.floor_nonneg.mpr (show (0 : ℚ) ≤ r * 4 by positivity)
    omega
  · have : ⌊r * 4⌋ < 4 := Int.floor_lt.mpr (by push_cast; linarith)
    omega

/-- The scorable objects spawned between consecutive bombs number at least
the drawn countdown `c` and at most `c + 2` (the last batch overshoots by
at most 2). -/
lemma firstBombRun_fruit_bounds :
    ∀ (samples : List (ℚ × ℚ)) (c : ℤ) (f t : ℕ), ValidSamples samples →
      0 < c → firstBombRun c samples = some (f, t) →
      c ≤ (f : ℤ) ∧ (f : ℤ) ≤ c + 2 := by
  intro samples
  induction samples with
  | nil =>
    intro c f t hv hc hrun
    exact absurd hrun (by simp [firstBombRun])
  | cons p rest ih =>
    intro c f t hv hc hrun
    have hp := hv p (List.mem_cons_self _ _)
    have hb := spawnTimes_bounds p.1 hp.1 hp.2
    simp only [firstBombRun, spawnFruitStep] at hrun
    by_cases hbomb : c - spawnTimes p.1 ≤ 0
    · rw [if_pos hbomb] at hrun
      simp only [if_pos rfl] at hrun
      have hf : (spawnTimes p.1).toNat = f := by
        have := Option.some_inj.mp hrun
        simpa using congrArg Prod.fst this
      have htn : ((spawnTimes p.1).toNat : ℤ) = spawnTimes p.1 :=
        Int.toNat_of_nonneg (by omega)
      rw [← hf]
      omega
    · rw [if_neg hbomb] at hrun
      simp only [Bool.false_eq_true, if_false] at hrun
      rcases hmatch : firstBombRun (c - spawnTimes p.1) rest with - | q
      · rw [hmatch] at hrun
        exact absurd hrun (by simp)
      · rw [hmatch] at hrun
        simp only [Option.some_inj] at hrun
        have hq := ih (c - spawnTimes p.1)  q.1 q.2
          (fun x hx => hv x (List.mem_cons_of_mem _ hx)) (by omega)
          (by rw [hmatch])
        have hf : (spawnTimes p.1).toNat + q.1 = f := by
          simpa using congrArg Prod.fst hrun
        have htn : ((spawnTimes p.1).toNat : ℤ) = spawnTimes p.1 :=
          Int.toNat_of_nonneg (by omega)
        rw [← hf]
        push_cast
        omega

/-- Batch-level abstraction of `firstBombRun`: the run depends on the
samples only through the drawn batch sizes. -/
def spawnBatchRun (countdown : ℤ) : List ℤ → Option (ℕ × ℕ)
  | [] => none
  | t :: rest =>
    if countdown - t ≤ 0 then some (t.toNat, 1)
    else
      match spawnBatchRun (countdown - t) rest with
      | none => none
      | some q => some (t.toNat + q.1, q.2 + 1)

/-- `firstBombRun` factors through the batch sizes of its samples. -/
lemma firstBombRun_eq_batchRun :
    ∀ (samples : List (ℚ × ℚ)) (countdown : ℤ),
      firstBombRun countdown samples
        = spawnBatchRun countdown (samples.map fun p => spawnTimes p.1) := by
  intro samples
  induction samples with
  | nil =>
    intro countdown
    rfl
  | cons p rest ih =>
    intro countdown
    simp only [firstBombRun, spawnFruitStep, List.map_cons, spawnBatchRun]
    by_cases hbomb : countdown - spawnTimes p.1 ≤ 0
    · rw [if_pos hbomb, if_pos hbomb]
      simp
    · rw [if_neg hbomb, if_neg hbomb]
      simp only [Bool.false_eq_true, if_false]
      rw [ih (countdown - spawnTimes p.1)]

/-- All batch lists over `{1, 2, 3}` of length at most `len`. -/
def batchLists : ℕ → List (List ℤ)
  | 0 => [[]]
  | n + 1 =>
    [[]] ++ (([1, 2, 3] : List ℤ).flatMap fun t =>
      (batchLists n).map fun bs => t :: bs)

/-- Every `{1, 2, 3}`-batch list of bounded length is enumerated by
`batchLists`. -/
lemma mem_batchLists :
    ∀ (len : ℕ) (bs : List ℤ), (∀ t ∈ bs, t = 1 ∨ t = 2 ∨ t = 3) →
      bs.length ≤ len → bs ∈ batchLists len := by
  intro len
  induction len with
  | zero =>
    intro bs hmem hlen
    have : bs = [] := List.length_eq_zero.mp (Nat.le_zero.mp hlen)
    subst this
    simp [batchLists]
  | succ len ih =>
    intro bs hmem hlen
    cases bs with
    | nil => simp [batchLists]
    | cons t rest =>
      simp only [batchLists, List.mem_append, List.mem_flatMap, List.mem_map]
      right
      refine ⟨t, ?_, rest, ?_, rfl⟩
      · have := hmem t (List.mem_cons_self _ _)
        simpa using this
      · exact ih rest (fun x hx => hmem x (List.mem_cons_of_mem _ hx))
          (by simpa using Nat.le_of_succ_le_succ hlen)

/-- Exhaustive search: does any batch run of length at most `len` starting
from countdown `c` reach its first bomb with strictly fewer scorable
objects than `c`? -/
def shortfallRunExists (c : ℤ) (len : ℕ) : Bool :=
  (batchLists len).any fun bs =>
    match spawnBatchRun c bs with
    | some q => decide ((q.1 : ℤ) < c)
    | none => false

/-- C10 (amended): every spawn trigger draws a batch of 1–3 scorable
objects (each size attainable); the countdown decreases by the whole batch
and the bomb fires exactly when it reaches zero or below, after which the
countdown is reset into `[4, 8)`; consequently the number of scorable
objects spawned between consecutive bombs is at least the drawn countdown
`N` (never smaller — it can exceed it by up to 2), while the number of
spawn triggers between consecutive bombs can be smaller than `N`. -/
theorem spawn_batches_and_bomb_cadence :
    (∀ r : ℚ, 0 ≤ r → r < 1 → 1 ≤ spawnTimes r ∧ spawnTimes r ≤ 3) ∧
      spawnTimes 0 = 1 ∧ spawnTimes (1 / 3) = 2 ∧ spawnTimes (2 / 3) = 3 ∧
      (∀ r : ℚ, 0 ≤ r → r < 1 → 4 ≤ bombReset r ∧ bombReset r ≤ 7) ∧
      (∀ (r1 r2 : ℚ) (c : ℤ),
        (spawnFruitStep r1 r2 c).1 = spawnTimes r1 ∧
          ((spawnFruitStep r1 r2 c).2.2 = true ↔ c - spawnTimes r1 ≤ 0) ∧
          ((spawnFruitStep r1 r2 c).2.2 = false →
            (spawnFruitStep r1 r2 c).2.1 = c - spawnTimes r1) ∧
          ((spawnFruitStep r1 r2 c).2.2 = true →
            (spawnFruitStep r1 r2 c).2.1 = bombReset r2)) ∧
      (∀ (samples : List (ℚ × ℚ)) (c : ℤ) (f t : ℕ), ValidSamples samples →
        0 < c → firstBombRun c samples = some (f, t) →
        c ≤ (f : ℤ) ∧ (f : ℤ) ≤ c + 2) ∧
      (firstBombRun 4 [(3 / 4, 0), (3 / 4, 0)] = some (6, 2) ∧
        2 < 4 ∧ (4 : ℤ) < 6) := by
  have h34 : spawnTimes (3 / 4) = 3 := by norm_num [spawnTimes]
  refine ⟨spawnTimes_bounds, by norm_num [spawnTimes],
    by norm_num [spawnTimes], by norm_num [spawnTimes], bombReset_bounds,
    ?_, firstBombRun_fruit_bounds, ?_, by norm_num, by norm_num⟩
  · intro r1 r2 c
    refine ⟨?_, ?_, ?_, ?_⟩ <;> simp only [spawnFruitStep]
    · by_cases h : c - spawnTimes r1 ≤ 0
      · rw [if_pos h]
      · rw [if_neg h]
    · by_cases h : c - spawnTimes r1 ≤ 0
      · rw [if_pos h]
        simpa using h
      · rw [if_neg h]
        simpa using h
    · by_cases h : c - spawnTimes r1 ≤ 0
      · rw [if_pos h]
        simp
      · rw [if_neg h]
        intro
        rfl
    · by_cases h : c - spawnTimes r1 ≤ 0
      · rw [if_pos h]
        intro
        rfl
      · rw [if_neg h]
        simp
  · simp [firstBombRun, spawnFruitStep, h34]

/-- Witness for the amended C10: batch bounds at sample `1/2`, and the
fruit-count bounds at the concrete two-trigger run from countdown 4. -/
theorem spawn_batches_and_bomb_cadence_witness :
    (1 ≤ spawnTimes (1 / 2) ∧ spawnTimes (1 / 2) ≤ 3) ∧
      (4 ≤ bombReset (1 / 2) ∧ bombReset (1 / 2) ≤ 7) ∧
      ((4 : ℤ) ≤ (6 : ℕ) ∧ ((6 : ℕ) : ℤ) ≤ 4 + 2) := by
  have hthm := spawn_batches_and_bomb_cadence
  refine ⟨hthm.1 (1 / 2) (by norm_num) (by norm_num),
    hthm.2.2.2.2.1 (1 / 2) (by norm_num) (by norm_num),
    hthm.2.2.2.2.2.2.1 [(3 / 4, 0), (3 / 4, 0)] 4 6 2 ?_ (by norm_num)
      hthm.2.2.2.2.2.2.2.1⟩
  intro p hp
  rcases List.mem_cons.mp hp with h | h
  · rw [h]
    norm_num
  · rcases List.mem_cons.mp h with h' | h'
    · rw [h']
      norm_num
    · exact absurd h' (List.not_mem_nil p)

/-- Counterexample to C10 as stated: exhaustively over every batch
sequence drawn from `{1, 2, 3}` (the range of the batch draw) of length up
to 4, no run from the drawn countdown `N = 4` reaches its first bomb with
fewer than 4 scorable objects spawned — the actual number of scorable
spawns between consecutive bombs is never smaller than the drawn `N`. -/
theorem no_bomb_run_spawns_fewer_fruits_than_drawn :
    shortfallRunExists 4 4 = false := by
  decide

/-!  ### C4: degenerate solver inputs are not rejected  -/

/-- C4 (code bug): the code performs no input validation whatsoever — for
the degenerate flight duration `T = −6000 ≤ 0` the solver silently returns
a finite positive gravity and a finite (upward-flight-free) velocity
instead of failing with an `InvalidParameters` error, and for a negative
canvas height it returns a negative gravity. -/
theorem degenerate_solver_inputs_return_values_without_error :
    calculateGravity 600 (-6000) = 4 / 75 ∧
      0 < calculateGravity 600 (-6000) ∧
      calculateGravity (-600) 6000 = -(4 / 75) ∧
      (randomVelocity { x := 40, y := 600 } 800 600
          (calculateGravity 600 (-6000)) (-6000) 0 148)
        = { vx := -(12 / 5), vy := 445283 / 33600 } := by
  refine ⟨?_, ?_, ?_, ?_⟩ <;>
    norm_num [calculateGravity, FruitMoveInterval, randomVelocity,
      risingTime, distanceY, peekHeight, Margin, Velocity.mk.injEq]

end NinjaFruit
